import Mathlib

/-!
Verification of the streaming-translation pipeline of `translate.go`
(package `translate`): the chunker in `Translate`, the delimiter scanner
`readUntil`, the request/response wire codec in `translate`, and the
`Languages` catalog cache.  Bytes are modelled as `Nat` (the code only
compares bytes, never computes with them); byte 10 is `'\n'`.
-/

set_option maxRecDepth 20000

namespace GoTranslate

/-- Model of `bytes.LastIndexByte l c` (translate.go line 51): index of the last
occurrence of byte `c` in `l`, or `none` when absent (Go returns -1). -/
def lastIndexByte : List Nat → Nat → Option Nat
  | [], _ => none
  | b :: t, c =>
    match lastIndexByte t c with
    | some k => some (k + 1)
    | none => if b = c then some 0 else none

/-- The cut position `j` computed in translate.go lines 51-56: one past the
last newline of the freshly read block, or the block length when the block
contains no newline. -/
def newlineCut (d : List Nat) : Nat :=
  match lastIndexByte d 10 with
  | none => d.length
  | some k => k + 1

/-- One iteration of the `Translate` loop body (translate.go lines 50-62)
given the buffered residue `buf[:i]` and the freshly read block `p[:n]`:
returns the segment `buf[:i+j]` passed to `translate` and the new residue
`p[j:]` copied back to the front of the buffer. -/
def chunkIter (residue d : List Nat) : List Nat × List Nat :=
  (residue ++ d.take (newlineCut d), d.drop (newlineCut d))

/-- Error part of one `io.Reader.Read` result: end-of-data or a genuine
read failure. -/
inductive RErr
  | eof
  | fail
deriving DecidableEq

/-- One `r.Read(p)` result in the `Translate` loop (translate.go line 41):
the bytes delivered and the error returned alongside them. -/
structure Ev where
  data : List Nat
  err : Option RErr
deriving DecidableEq

/-- The segments `Translate` passes to the wire codec `translate`
(translate.go lines 39-66), driven by the script `evs` of read results,
starting from residue `r`.  An exhausted script behaves as a reader that
keeps returning `(0, io.EOF)`: the loop then flushes a non-empty residue
as a final segment and stops.  A `fail` read aborts with no further
segment; the successful-network path is modelled (a network failure only
truncates this list further). -/
def segsOf : List Ev → List Nat → List (List Nat)
  | [], r => if r = [] then [] else [r]
  | ev :: rest, r =>
    match ev.err with
    | some RErr.fail => []
    | some RErr.eof =>
      if ev.data = [] ∧ r = [] then []
      else (chunkIter r ev.data).1 :: segsOf rest (chunkIter r ev.data).2
    | none => (chunkIter r ev.data).1 :: segsOf rest (chunkIter r ev.data).2

/-- Whether the `Translate` loop returns `nil` (no error) on the script
`evs` from residue `r`, with the network and sink modelled as succeeding
(translate.go lines 42-48). -/
def runsClean : List Ev → List Nat → Bool
  | [], _ => true
  | ev :: rest, r =>
    match ev.err with
    | some RErr.fail => false
    | some RErr.eof =>
      if ev.data = [] ∧ r = [] then true
      else runsClean rest (chunkIter r ev.data).2
    | none => runsClean rest (chunkIter r ev.data).2

/-- A read script is realizable for the 5000-byte buffer (translate.go
line 36): each `Read` delivers at most `5000 - i` bytes, where `i` is the
current residue length tracked exactly as the loop tracks it. -/
def validFrom : List Ev → Nat → Bool
  | [], _ => true
  | ev :: rest, i =>
    decide (ev.data.length + i ≤ 5000) &&
    match ev.err with
    | some RErr.fail => true
    | some RErr.eof =>
      if ev.data = [] ∧ i = 0 then true
      else validFrom rest (ev.data.length - newlineCut ev.data)
    | none => validFrom rest (ev.data.length - newlineCut ev.data)

/-- A plain input byte stream delivered in the given chunks, each read
returning `nil` error, with end-of-data after the last chunk. -/
def plainEvs (chunks : List (List Nat)) : List Ev :=
  chunks.map (fun d => ⟨d, none⟩)

/-- Number of HTTP requests a full run issues: `translate` performs
exactly one POST per non-empty segment and none for an empty segment
(translate.go lines 187-189 and 200-207). -/
def networkCalls (evs : List Ev) : Nat :=
  ((segsOf evs []).filter (fun s => !s.isEmpty)).length

/-- Bytes written to the sink `w` over a full run, with `net` giving the
translation returned for a non-empty segment; an empty segment yields
`[]byte{}` without a network call (translate.go lines 187-189, 63). -/
def outputBytes (net : List Nat → List Nat) (evs : List Ev) : List Nat :=
  ((segsOf evs []).map (fun s => if s = [] then [] else net s)).flatten

/-! ### Delimiter scanner `readUntil` (translate.go lines 142-184) -/

/-- Index of the first occurrence of byte `c` in `l`. -/
def firstIndexByte : List Nat → Nat → Option Nat
  | [], _ => none
  | b :: t, c => if b = c then some 0 else (firstIndexByte t c).map (· + 1)

/-- Error part of a `bufio.Reader.ReadSlice` result. -/
inductive SliceErr
  | ok
  | bufferFull
  | eofE
deriving DecidableEq

/-- Model of `bufio.Reader.ReadSlice(c)` over the remaining stream content `s`
with the default 4096-byte buffer: the line returned, the error, and the
remaining stream.  The result depends only on the remaining content
because `bufio` compacts and refills its buffer across calls. -/
def readSlice (s : List Nat) (c : Nat) : List Nat × SliceErr × List Nat :=
  match firstIndexByte (s.take 4096) c with
  | some k => (s.take (k + 1), SliceErr.ok, s.drop (k + 1))
  | none =>
    if 4096 ≤ s.length then (s.take 4096, SliceErr.bufferFull, s.drop 4096)
    else (s, SliceErr.eofE, [])

/-- The partial-match scan of translate.go lines 162-168: whether `line`
ends with `sepPre.drop i` for some `i < sepPre.length` (`sepPre` is
`sep` without its last byte; the Go slice bound is in range because a
buffer-full line has 4096 bytes, more than any delimiter used here). -/
def tailMatchesPre (line sepPre : List Nat) : Bool :=
  (List.range sepPre.length).any (fun i => (sepPre.drop i).isSuffixOf line)

/-- The loop of `readUntil` (translate.go lines 155-183) on the remaining
stream `s`, fuel-bounded: `none` means the loop has not returned within
`fuel` iterations (the loop has no other exit on an EOF-terminated
stream: its only error return propagates a genuine read failure, which a
byte-content stream never produces).  `some rest` means `readUntil`
returned `nil` with `rest` still unconsumed. -/
def readUntilGo (sepLast : Nat) (sepPre sep : List Nat) :
    Nat → List Nat → Bool → Option (List Nat)
  | 0, _, _ => none
  | fuel + 1, s, fpm =>
    match readSlice s sepLast with
    | (line, e, rest) =>
      match e with
      | SliceErr.bufferFull =>
        if tailMatchesPre line sepPre then readUntilGo sepLast sepPre sep fuel rest true
        else readUntilGo sepLast sepPre sep fuel rest false
      | _ =>
        if line.length ≤ sep.length then
          if fpm ∧ line = sep.drop (sep.length - line.length) then some rest
          else readUntilGo sepLast sepPre sep fuel rest false
        else if sep.isSuffixOf line ∨ e = SliceErr.eofE then some rest
        else readUntilGo sepLast sepPre sep fuel rest false

/-- Model of `readUntil(buf, sep)` on an EOF-terminated stream `s` (translate.go
lines 143-153): splits `sep` into its last byte and the rest, then runs
the scan loop with the given fuel. -/
def readUntilModel (fuel : Nat) (s sep : List Nat) : Option (List Nat) :=
  match sep.getLast? with
  | none => some s
  | some lastB => readUntilGo lastB sep.dropLast sep fuel s false

/-! ### Response decode phase of `translate` (translate.go lines 216-258)

The raw body is searched for `[[`, decoded into `x [][]any`, the string
at `x[0][2]` is parsed again into `y []any`, traversed by the fixed index
path `[1,0,0,5]`, and the fragments' `[0]` strings are concatenated and
newline-normalized.  JSON values decoded into `any` are modelled by
`JVal`; Go's three-way outcome (runtime panic from out-of-range indexing,
returned error, success) by `GoResult`. -/

/-- A JSON value as decoded by `encoding/json` into `any`. -/
inductive JVal
  | jnull
  | jbool (b : Bool)
  | jnum (q : Int)
  | jstr (s : List Nat)
  | jarr (xs : List JVal)

/-- Outcome of a piece of Go code: a runtime panic (index out of range),
a returned `error`, or a returned value. -/
inductive GoResult (α : Type)
  | panic
  | err (msg : String)
  | ok (v : α)
deriving DecidableEq

/-- Sequencing that propagates panics and returned errors. -/
def GoResult.bind {α β : Type} : GoResult α → (α → GoResult β) → GoResult β
  | GoResult.panic, _ => GoResult.panic
  | GoResult.err e, _ => GoResult.err e
  | GoResult.ok v, f => f v

/-- Step `s, ok := x[0][2].(string)` (translate.go lines 225-228): `x[0]`
panics when `x` is empty, `x[0][2]` panics when `x[0]` has fewer than 3
elements, and a non-string element yields the returned error. -/
def extractOuterString : List (List JVal) → GoResult (List Nat)
  | [] => GoResult.panic
  | x0 :: _ =>
    match x0 with
    | _ :: _ :: JVal.jstr s :: _ => GoResult.ok s
    | _ :: _ :: _ :: _ => GoResult.err "Expected string at 0 2 of response JSON array"
    | _ => GoResult.panic

/-- Step `json.Unmarshal([]byte(s), &y)` with `y []any` (translate.go lines
229-232): JSON `null` unmarshals into a slice by setting it to `nil`
with no error, so the loop proceeds on a length-0 slice; any other
successfully parsed non-array JSON value is an unmarshal type error. -/
def asArray : JVal → GoResult (List JVal)
  | JVal.jarr xs => GoResult.ok xs
  | JVal.jnull => GoResult.ok []
  | _ => GoResult.err "json cannot unmarshal value into Go value of type any slice"

/-- The fixed-path loop `for _, n := range []int{1,0,0,5}` (translate.go
lines 233-238): `y[n]` panics when `n` is out of range; a non-array
element yields the returned decode error. -/
def descend : List Nat → List JVal → GoResult (List JVal)
  | [], ys => GoResult.ok ys
  | n :: path, ys =>
    match ys.drop n with
    | [] => GoResult.panic
    | JVal.jarr zs :: _ => descend path zs
    | _ :: _ => GoResult.err "Could not decode response"

/-- The fragment loop (translate.go lines 239-252): each fragment must be
an array (else decode error) whose element `x[0]` (panic when the array
is empty) must be a string (else decode error); the strings are
concatenated in order. -/
def collectFrags : List JVal → GoResult (List Nat)
  | [] => GoResult.ok []
  | v :: rest =>
    match v with
    | JVal.jarr [] => GoResult.panic
    | JVal.jarr (JVal.jstr s :: _) =>
      match collectFrags rest with
      | GoResult.ok t => GoResult.ok (s ++ t)
      | GoResult.err e => GoResult.err e
      | GoResult.panic => GoResult.panic
    | JVal.jarr (_ :: _) => GoResult.err "Could not decode response"
    | _ => GoResult.err "Could not decode response"

/-- The trailing-newline normalization (translate.go lines 253-258):
`b[len(b)-1]` panics when the concatenation is empty; otherwise a newline
is appended when the last byte is not one. -/
def finishNewline (b : List Nat) : GoResult (List Nat) :=
  match b.getLast? with
  | none => GoResult.panic
  | some c => if c = 10 then GoResult.ok b else GoResult.ok (b ++ [10])

/-- Fragment list to final translation bytes (translate.go lines 239-258). -/
def decodeFrags (frs : List JVal) : GoResult (List Nat) :=
  GoResult.bind (collectFrags frs) finishNewline

/-- The whole decode phase after the two JSON parses (translate.go lines
225-258), on the decoded outer array `x` and the value `y` parsed from
the string at `x[0][2]`.  Both parse steps themselves return ordinary
decode errors on failure, so every panic of the decode phase on any
response body is a panic of this function. -/
def decodeShape (x : List (List JVal)) (y : JVal) : GoResult (List Nat) :=
  GoResult.bind (extractOuterString x) (fun _ =>
    GoResult.bind (asArray y) (fun ys =>
      GoResult.bind (descend [1, 0, 0, 5] ys) decodeFrags))

/-! Characterization predicates for the panic cases (these follow the
spec-side description of "an element required by a decoding step is
missing", to be compared with the code-side `decodeShape`). -/

/-- An index of the fixed path runs past the end of the current array
while every earlier step found an in-range array. -/
def pathMissing : List Nat → List JVal → Bool
  | [], _ => false
  | n :: path, ys =>
    match ys.drop n with
    | [] => true
    | JVal.jarr zs :: _ => pathMissing path zs
    | _ :: _ => false

/-- The array reached by following the fixed path, when every step finds
an in-range array element. -/
def pathTarget : List Nat → List JVal → Option (List JVal)
  | [], ys => some ys
  | n :: path, ys =>
    match ys.drop n with
    | JVal.jarr zs :: _ => pathTarget path zs
    | _ => none

/-- Scanning the fragments in order, the first offending fragment is an
empty array (so `x[0]` is missing). -/
def fragsMissing : List JVal → Bool
  | [] => false
  | JVal.jarr [] :: _ => true
  | JVal.jarr (JVal.jstr _ :: _) :: rest => fragsMissing rest
  | _ => false

/-- Every fragment is an array whose first element is a string. -/
def fragsAllStrs : List JVal → Bool
  | [] => true
  | JVal.jarr (JVal.jstr _ :: _) :: rest => fragsAllStrs rest
  | _ => false

/-- In-order concatenation of the fragments' first strings. -/
def fragsText : List JVal → List Nat
  | JVal.jarr (JVal.jstr s :: _) :: rest => s ++ fragsText rest
  | _ => []

/-- A decoding step finds a required element missing: the outer array is
empty or its first element shorter than 3 (with a string where expected),
a fixed-path index is out of range — which includes an inner JSON `null`,
unmarshalled as the nil slice, on which `y[1]` is already out of range —
a fragment is an empty array, or the fragment concatenation is empty
when the trailing-newline check runs. -/
def respMissing (x : List (List JVal)) (y : JVal) : Bool :=
  match x with
  | [] => true
  | x0 :: _ =>
    match x0 with
    | _ :: _ :: JVal.jstr _ :: _ =>
      match y with
      | JVal.jarr ys =>
        pathMissing [1, 0, 0, 5] ys ||
        (match pathTarget [1, 0, 0, 5] ys with
         | none => false
         | some frs =>
           fragsMissing frs || (fragsAllStrs frs && (fragsText frs).isEmpty))
      | JVal.jnull => pathMissing [1, 0, 0, 5] []
      | _ => false
    | _ :: _ :: _ :: _ => false
    | _ => true

/-! ### Request encoding of `translate` (translate.go lines 186-199)

`json.Marshal` of the concrete nested slices, followed by
`url.Values.Encode` of the single field `f.req`. -/

/-- Lowercase hex digit byte, as used by `encoding/json` `\u00XX` escapes. -/
def hexL (n : Nat) : Nat := if n < 10 then 48 + n else 87 + n

/-- Uppercase hex digit byte, as used by `net/url` percent-escapes. -/
def hexU (n : Nat) : Nat := if n < 10 then 48 + n else 55 + n

/-- A `\u00XX` escape for byte `b`. -/
def uEsc (b : Nat) : List Nat := [92, 117, 48, 48, hexL (b / 16), hexL (b % 16)]

/-- A UTF-8 continuation byte. -/
def isCont (b : Nat) : Bool := 128 ≤ b && b ≤ 191

/-- Valid second byte of a 3-byte UTF-8 sequence led by `b0`
(`utf8.DecodeRune` ranges: `0xE0` needs `A0..BF`, `0xED` needs `80..9F`). -/
def okB1for3 (b0 b1 : Nat) : Bool :=
  if b0 = 224 then 160 ≤ b1 && b1 ≤ 191
  else if b0 = 237 then 128 ≤ b1 && b1 ≤ 159
  else isCont b1

/-- Valid second byte of a 4-byte UTF-8 sequence led by `b0`
(`0xF0` needs `90..BF`, `0xF4` needs `80..8F`). -/
def okB1for4 (b0 b1 : Nat) : Bool :=
  if b0 = 240 then 144 ≤ b1 && b1 ≤ 191
  else if b0 = 244 then 128 ≤ b1 && b1 ≤ 143
  else isCont b1

/-- Size of the valid UTF-8 encoding starting at the head of `l`, or
`none` when `utf8.DecodeRune` would report `RuneError` of size 1. -/
def utf8SizeAt (l : List Nat) : Option Nat :=
  match l with
  | [] => none
  | b0 :: t =>
    if b0 ≤ 127 then some 1
    else if 194 ≤ b0 && b0 ≤ 223 then
      match t with
      | b1 :: _ => if isCont b1 then some 2 else none
      | [] => none
    else if 224 ≤ b0 && b0 ≤ 239 then
      match t with
      | b1 :: b2 :: _ => if okB1for3 b0 b1 && isCont b2 then some 3 else none
      | _ => none
    else if 240 ≤ b0 && b0 ≤ 244 then
      match t with
      | b1 :: b2 :: b3 :: _ =>
        if okB1for4 b0 b1 && isCont b2 && isCont b3 then some 4 else none
      | _ => none
    else none

/-- Model of `encoding/json` string escaping (with the default HTML escaping) of
the byte content of a Go string, fuel-recursive on the byte count:
ASCII control bytes, `"`, `\`, `<`, `>`, `&` are escaped, invalid UTF-8
becomes a replacement-character escape, U+2028 and U+2029 become their
unicode escapes, everything
else is copied. -/
def jsonEscapeF : Nat → List Nat → List Nat
  | 0, _ => []
  | _, [] => []
  | fuel + 1, b :: t =>
    if b < 128 then
      (if b = 34 then [92, 34]
       else if b = 92 then [92, 92]
       else if b = 10 then [92, 110]
       else if b = 13 then [92, 114]
       else if b = 9 then [92, 116]
       else if b < 32 then uEsc b
       else if b = 60 || b = 62 || b = 38 then uEsc b
       else [b]) ++ jsonEscapeF fuel t
    else
      match utf8SizeAt (b :: t) with
      | none => [92, 117, 102, 102, 102, 100] ++ jsonEscapeF fuel t
      | some sz =>
        if (b :: t).take sz = [226, 128, 168] then
          [92, 117, 50, 48, 50, 56] ++ jsonEscapeF fuel (t.drop (sz - 1))
        else if (b :: t).take sz = [226, 128, 169] then
          [92, 117, 50, 48, 50, 57] ++ jsonEscapeF fuel (t.drop (sz - 1))
        else (b :: t).take sz ++ jsonEscapeF fuel (t.drop (sz - 1))

/-- Escaping of a whole string as `encoding/json` does it. -/
def jsonEscape (l : List Nat) : List Nat := jsonEscapeF l.length l

/-- The concrete Go values handed to `json.Marshal` in `translate`. -/
inductive GoJSON
  | null
  | bool (b : Bool)
  | str (s : List Nat)
  | arr (xs : List GoJSON)

mutual

/-- Output bytes of `json.Marshal` for a `GoJSON` value. -/
def marshal : GoJSON → List Nat
  | GoJSON.null => [110, 117, 108, 108]
  | GoJSON.bool true => [116, 114, 117, 101]
  | GoJSON.bool false => [102, 97, 108, 115, 101]
  | GoJSON.str s => [34] ++ jsonEscape s ++ [34]
  | GoJSON.arr xs => [91] ++ marshalList xs ++ [93]

/-- Comma-separated marshals of the elements of an array. -/
def marshalList : List GoJSON → List Nat
  | [] => []
  | [x] => marshal x
  | x :: y :: xs => marshal x ++ [44] ++ marshalList (y :: xs)

end

/-- An ASCII letter or digit. -/
def isAlnum (b : Nat) : Bool :=
  (48 ≤ b && b ≤ 57) || (65 ≤ b && b ≤ 90) || (97 ≤ b && b ≤ 122)

/-- Model of `url.QueryEscape`: space becomes `+`, unreserved bytes
(alphanumerics, `-`, `_`, `.`, `~`) pass through, everything else
becomes `%XX` with uppercase hex. -/
def queryEscape : List Nat → List Nat
  | [] => []
  | b :: t =>
    (if b = 32 then [43]
     else if isAlnum b || b = 45 || b = 95 || b = 46 || b = 126 then [b]
     else [37, hexU (b / 16), hexU (b % 16)]) ++ queryEscape t

/-- The bytes of `"MkEWBc"`, the fixed RPC identifier (line 194). -/
def rpcidBytes : List Nat := [77, 107, 69, 87, 66, 99]

/-- The bytes of `"generic"` (line 195). -/
def genericBytes : List Nat := [103, 101, 110, 101, 114, 105, 99]

/-- The bytes of `"f.req"` (line 199). -/
def fReqBytes : List Nat := [102, 46, 114, 101, 113]

/-- The `payload` value (line 190): marshal of
`[][]any{{string(data), sourceLang, targetLang, true}, {nil}}`. -/
def innerPayload (data src tgt : List Nat) : List Nat :=
  marshal (GoJSON.arr
    [GoJSON.arr [GoJSON.str data, GoJSON.str src, GoJSON.str tgt, GoJSON.bool true],
     GoJSON.arr [GoJSON.null]])

/-- The `wrap` value (line 195): marshal of
`[][][]any{{{rpcid, string(payload), nil, "generic"}}}`. -/
def wrapPayload (data src tgt : List Nat) : List Nat :=
  marshal (GoJSON.arr [GoJSON.arr [GoJSON.arr
    [GoJSON.str rpcidBytes, GoJSON.str (innerPayload data src tgt),
     GoJSON.null, GoJSON.str genericBytes]]])

/-- The POST body `url.Values.Encode()` of the single field `f.req` (lines 199-200). -/
def postBody (data src tgt : List Nat) : List Nat :=
  queryEscape fReqBytes ++ [61] ++ queryEscape (wrapPayload data src tgt)

/-! Spec-side request shape (these definitions follow the spec's words:
body `f.req=<url-encoded-JSON>`, JSON
`[[["MkEWBc","<escaped-inner-JSON>",null,"generic"]]]`, inner JSON the
encoding of `[[text, sourceLang, targetLang, true],[null]]`), to be
compared with the code-side `postBody`. -/

/-- Spec-side inner JSON: `[["<text>","<src>","<tgt>",true],[null]]`
written out byte for byte around the JSON-escaped strings. -/
def specInnerJSON (text src tgt : List Nat) : List Nat :=
  [91, 91] ++ ([34] ++ jsonEscape text ++ [34]) ++ [44] ++
  ([34] ++ jsonEscape src ++ [34]) ++ [44] ++
  ([34] ++ jsonEscape tgt ++ [34]) ++
  [44, 116, 114, 117, 101, 93, 44, 91, 110, 117, 108, 108, 93, 93]

/-- Spec-side outer JSON: `[[["MkEWBc","<escaped-inner-JSON>",null,"generic"]]]`
with the inner JSON escaped as a JSON string. -/
def specOuterJSON (text src tgt : List Nat) : List Nat :=
  [91, 91, 91, 34, 77, 107, 69, 87, 66, 99, 34, 44] ++
  ([34] ++ jsonEscape (specInnerJSON text src tgt) ++ [34]) ++
  [44, 110, 117, 108, 108, 44, 34, 103, 101, 110, 101, 114, 105, 99, 34, 93, 93, 93]

/-- Spec-side body: `f.req=` followed by the URL-encoded outer JSON. -/
def specBody (text src tgt : List Nat) : List Nat :=
  [102, 46, 114, 101, 113, 61] ++ queryEscape (specOuterJSON text src tgt)

/-! ### The whole `translate` call (translate.go lines 186-259) -/

/-- Transport and parsing outcome for one POST, abstracting the HTTP
round trip (lines 200-215), the `[[` marker search (lines 216-219), the
outer decode (lines 220-224) and the inner parse (lines 229-232):
everything between the built request body and the shape traversal. -/
inductive NetResp
  | transportErr (e : String)
  | noMarker
  | badOuter (e : String)
  | innerBad (x : List (List JVal)) (e : String)
  | parsed (x : List (List JVal)) (y : JVal)

/-- Result of `translate(data, sourceLang, targetLang)` given the
transport behavior `net`: an empty `data` returns `[]byte{}, nil` before
any request is built (lines 187-189); otherwise the body `postBody` is
sent and the response decoded by `decodeShape`. -/
def translateOutcome (net : List Nat → NetResp) (data src tgt : List Nat) :
    GoResult (List Nat) :=
  if data = [] then GoResult.ok []
  else
    match net (postBody data src tgt) with
    | NetResp.transportErr e => GoResult.err e
    | NetResp.noMarker => GoResult.err "Could not find start of JSON array in response"
    | NetResp.badOuter e => GoResult.err e
    | NetResp.innerBad x e => GoResult.bind (extractOuterString x) (fun _ => GoResult.err e)
    | NetResp.parsed x y => decodeShape x y

/-! ### `Languages` and its process-wide cache (translate.go lines 27, 78-125) -/

/-- A `Language` value (translate.go lines 21-25). -/
structure GoLanguage where
  code : List Nat
  englishName : List Nat
  endonym : List Nat
deriving DecidableEq

/-- Lookup `endonyms[lang[0]]`: Go map lookup with the zero value `""` for an
absent key, on the decoded code-to-native-name association. -/
def lookupEndonym (m : List (List Nat × List Nat)) (c : List Nat) : List Nat :=
  match m.find? (fun p => p.1 = c) with
  | some p => p.2
  | none => []

/-- Abstracted effect outcomes of the fetch-and-decode steps of one
`Languages()` call, in program order: the first `http.Get` (line 83), the
sentinel scan (line 93), the language-pair decode (line 97), the second
`http.Get` (line 104), the second scan (line 110), and the endonym decode
(line 116).  `none`/`Except.ok` means the step succeeds. -/
structure LangEff where
  get1 : Option String
  find1 : Option String
  dec1 : Except String (List (List Nat × List Nat))
  get2 : Option String
  find2 : Option String
  dec2 : Except String (List (List Nat × List Nat))

/-- Whether an `Except` outcome is an error. -/
def exceptIsError {α : Type} : Except String α → Bool
  | Except.error _ => true
  | Except.ok _ => false

/-- One call of `Languages()` (translate.go lines 79-125) against the
cache state (`none` models the nil slice `cachedLangs`): returns the new
cache state, the call's result, and whether any network fetch was
issued.  The cache is assigned the non-nil empty slice
`make([]Language, 0, 136)` (line 91) right after the first fetch
succeeds, before any step that can still fail. -/
def languagesCall (eff : LangEff) (cache : Option (List GoLanguage)) :
    Option (List GoLanguage) × Except String (List GoLanguage) × Bool :=
  match cache with
  | some l => (some l, Except.ok l, false)
  | none =>
    match eff.get1 with
    | some e => (none, Except.error e, true)
    | none =>
      match eff.find1 with
      | some e => (some [], Except.error ("could not find list of languages: " ++ e), true)
      | none =>
        match eff.dec1 with
        | Except.error e => (some [], Except.error e, true)
        | Except.ok pairs =>
          match eff.get2 with
          | some e => (some [], Except.error e, true)
          | none =>
            match eff.find2 with
            | some e => (some [], Except.error e, true)
            | none =>
              match eff.dec2 with
              | Except.error e => (some [], Except.error e, true)
              | Except.ok endos =>
                let merged := pairs.map (fun p =>
                  { code := p.1, englishName := p.2,
                    endonym := lookupEndonym endos p.1 : GoLanguage })
                (some merged, Except.ok merged, true)

/-! ### Claims C3 and C4: the delimiter scanner -/

theorem readUntilGo_stuck_empty (sepLast : Nat) (sepPre sep : List Nat) :
    ∀ fuel : Nat, readUntilGo sepLast sepPre sep fuel [] false = none := by
  intro fuel
  induction fuel with
  | zero => rfl
  | succ fuel ih =>
    unfold readUntilGo
    simp [readSlice, firstIndexByte]
    exact ih

/-- Claim C3 (code-bug evaluation): on the six-byte stream `"xxxxxx"`
with delimiter `"ab"`, the stream ends with the delimiter never matched,
yet `readUntil` returns `nil` (success) after one iteration — the
end-of-stream branch `err == io.EOF` succeeds whenever the final chunk
is longer than the delimiter, so no "delimiter not found" failure is
ever produced. -/
theorem readUntil_eof_returns_success_not_error :
    readUntilModel 1 [120, 120, 120, 120, 120, 120] [97, 98] = some [] := by decide

/-- Claim C4 (code-bug evaluation): with delimiter `"AB"` and the stream
`"AB"` — the delimiter occurring at the very start of the stream —
`readUntil` never returns, for any number of loop iterations: the first
`ReadSlice` returns exactly the delimiter, but the acceptance branch for
lines no longer than the delimiter requires a pending partial match,
which is initially false, so the occurrence is skipped and the loop then
re-reads `(0, io.EOF)` forever. -/
theorem readUntil_misses_delimiter_at_stream_start :
    (∃ pre post : List Nat, pre ++ [65, 66] ++ post = [65, 66]) ∧
    ∀ fuel : Nat, readUntilModel fuel [65, 66] [65, 66] = none := by
  refine ⟨⟨[], [], rfl⟩, ?_⟩
  intro fuel
  show readUntilGo 66 [65] [65, 66] fuel [65, 66] false = none
  cases fuel with
  | zero => rfl
  | succ fuel =>
    unfold readUntilGo
    rw [show readSlice [65, 66] 66 = ([65, 66], SliceErr.ok, []) from by decide]
    simp
    exact readUntilGo_stuck_empty 66 [65] [65, 66] fuel

/-! ### Helper lemmas about `lastIndexByte` and the chunker -/

theorem lastIndexByte_eq_none {c : Nat} : ∀ {l : List Nat}, lastIndexByte l c = none → c ∉ l := by
  intro l
  induction l with
  | nil => intro _ h; exact absurd h (List.not_mem_nil c)
  | cons b t ih =>
    intro h
    rcases ht : lastIndexByte t c with _ | k
    · simp only [lastIndexByte, ht] at h
      by_cases hb : b = c
      · simp [hb] at h
      · intro hm
        rcases List.mem_cons.mp hm with h1 | h2
        · exact hb h1.symm
        · exact ih ht h2
    · simp [lastIndexByte, ht] at h

theorem lastIndexByte_take {c : Nat} : ∀ {l : List Nat} {k : Nat},
    lastIndexByte l c = some k → ∃ pre, l.take (k + 1) = pre ++ [c] := by
  intro l
  induction l with
  | nil => intro k h; simp [lastIndexByte] at h
  | cons b t ih =>
    intro k h
    rcases ht : lastIndexByte t c with _ | k'
    · simp only [lastIndexByte, ht] at h
      by_cases hb : b = c
      · simp only [hb, if_pos rfl] at h
        cases h
        exact ⟨[], by simp [hb]⟩
      · simp [hb] at h
    · simp only [lastIndexByte, ht] at h
      cases h
      rcases ih ht with ⟨pre, hpre⟩
      exact ⟨b :: pre, by simp [List.take_succ_cons, hpre]⟩

theorem lastIndexByte_drop {c : Nat} : ∀ {l : List Nat} {k : Nat},
    lastIndexByte l c = some k → c ∉ l.drop (k + 1) := by
  intro l
  induction l with
  | nil => intro k h; simp [lastIndexByte] at h
  | cons b t ih =>
    intro k h
    rcases ht : lastIndexByte t c with _ | k'
    · simp only [lastIndexByte, ht] at h
      by_cases hb : b = c
      · simp only [hb, if_pos rfl] at h
        cases h
        simpa using lastIndexByte_eq_none ht
      · simp [hb] at h
    · simp only [lastIndexByte, ht] at h
      cases h
      simpa using ih ht

theorem nl_not_in_new_residue (d : List Nat) : 10 ∉ d.drop (newlineCut d) := by
  unfold newlineCut
  rcases h : lastIndexByte d 10 with _ | k
  · simp
  · exact lastIndexByte_drop h

theorem chunkIter_seg_cases (r d : List Nat) (hr : (10 : Nat) ∉ r) :
    (10 : Nat) ∉ (chunkIter r d).1 ∨ ∃ pre, (chunkIter r d).1 = pre ++ [10] := by
  unfold chunkIter newlineCut
  rcases h : lastIndexByte d 10 with _ | k
  · left
    simp only [List.take_length]
    intro hm
    rcases List.mem_append.mp hm with h1 | h2
    · exact hr h1
    · exact lastIndexByte_eq_none h h2
  · right
    rcases lastIndexByte_take h with ⟨pre, hpre⟩
    exact ⟨r ++ pre, by simp [hpre]⟩

theorem segsOf_flatten (chunks : List (List Nat)) : ∀ r : List Nat,
    (segsOf (plainEvs chunks) r).flatten = r ++ chunks.flatten := by
  induction chunks with
  | nil =>
    intro r
    by_cases h : r = []
    · simp [plainEvs, segsOf, h]
    · simp [plainEvs, segsOf, h]
  | cons d rest ih =>
    intro r
    have h1 : segsOf (plainEvs (d :: rest)) r =
        (r ++ d.take (newlineCut d)) :: segsOf (plainEvs rest) (d.drop (newlineCut d)) := rfl
    rw [h1, List.flatten_cons, ih, List.flatten_cons, List.append_assoc,
      ← List.append_assoc (d.take (newlineCut d)), List.take_append_drop]

theorem segsOf_newline (evs : List Ev) : ∀ r : List Nat, (10 : Nat) ∉ r →
    ∀ seg ∈ segsOf evs r, (10 : Nat) ∈ seg → ∃ pre, seg = pre ++ [10] := by
  induction evs with
  | nil =>
    intro r hr seg hm h10
    have hseg : segsOf ([] : List Ev) r = if r = [] then [] else [r] := rfl
    rw [hseg] at hm
    by_cases h : r = []
    · simp [h] at hm
    · rw [if_neg h] at hm
      have hsr : seg = r := by simpa using hm
      subst hsr
      exact absurd h10 hr
  | cons ev rest ih =>
    intro r hr seg hm h10
    have step : ∀ hm2 : seg ∈ (chunkIter r ev.data).1 :: segsOf rest (chunkIter r ev.data).2,
        ∃ pre, seg = pre ++ [10] := by
      intro hm2
      rcases List.mem_cons.mp hm2 with h1 | h2
      · subst h1
        rcases chunkIter_seg_cases r ev.data hr with hno | hyes
        · exact absurd h10 hno
        · exact hyes
      · exact ih _ (nl_not_in_new_residue ev.data) seg h2 h10
    rcases he : ev.err with _ | e
    · simp only [segsOf, he] at hm
      exact step hm
    · cases e with
      | fail => simp [segsOf, he] at hm
      | eof =>
        simp only [segsOf, he] at hm
        by_cases hc : ev.data = [] ∧ r = []
        · simp [hc] at hm
        · rw [if_neg hc] at hm
          exact step hm

/-- Claim C2 (amended): concatenating in order all segments the chunker
passes to the wire codec reconstructs the input exactly; and every
produced segment either ends with a newline or contains no newline at
all (a non-final segment need not end with a newline). -/
theorem chunker_roundtrip_and_newline_invariant (chunks : List (List Nat)) :
    (segsOf (plainEvs chunks) []).flatten = chunks.flatten ∧
    ∀ seg ∈ segsOf (plainEvs chunks) [], (10 : Nat) ∈ seg → ∃ pre, seg = pre ++ [10] := by
  constructor
  · simpa using segsOf_flatten chunks []
  · exact segsOf_newline (plainEvs chunks) [] (by simp)

/-- Witness for C2's amended claim at the concrete stream delivered as
one chunk `"a\nb"`: the segments are `["a\n", "b"]`. -/
theorem chunker_roundtrip_witness :
    (segsOf (plainEvs [[97, 10, 98]]) []).flatten = [97, 10, 98] ∧
    ∃ pre, ([97, 10] : List Nat) = pre ++ [10] := by
  have h := chunker_roundtrip_and_newline_invariant [[97, 10, 98]]
  exact ⟨h.1, h.2 [97, 10] (by decide) (by decide)⟩

theorem lastIndexByte_replicate_ne {b c : Nat} (hbc : b ≠ c) :
    ∀ n, lastIndexByte (List.replicate n b) c = none := by
  intro n
  induction n with
  | zero => rfl
  | succ n ih => simp [List.replicate_succ, lastIndexByte, ih, hbc]

theorem lastIndexByte_cons (b : Nat) (t : List Nat) (c : Nat) :
    lastIndexByte (b :: t) c =
      match lastIndexByte t c with
      | some k => some (k + 1)
      | none => if b = c then some 0 else none := rfl

theorem validFrom_cons_none (d : List Nat) (rest : List Ev) (i : Nat) :
    validFrom (⟨d, none⟩ :: rest) i =
      (decide (d.length + i ≤ 5000) && validFrom rest (d.length - newlineCut d)) := rfl

/-- Claim C2 (counterexample): the stream `"a\n" ++ 5001 * "b"` (5003
bytes, longer than the 5000-byte cap, containing a newline) delivered by
a realizable read script produces the segments
`["a\n", 5000 * "b", "b"]`: the middle segment is not the last and does
not end with a newline, refuting the claim's second conjunct. -/
theorem chunker_nonfinal_segment_without_newline :
    segsOf [⟨97 :: 10 :: List.replicate 4998 98, none⟩, ⟨[98, 98], none⟩, ⟨[98], none⟩] [] =
      [[97, 10], List.replicate 4998 98 ++ [98, 98], [98]] ∧
    validFrom [⟨97 :: 10 :: List.replicate 4998 98, none⟩, ⟨[98, 98], none⟩, ⟨[98], none⟩] 0 = true ∧
    5000 < ((97 :: 10 :: List.replicate 4998 98) ++ [98, 98] ++ [98]).length ∧
    (10 : Nat) ∈ (97 :: 10 :: List.replicate 4998 98) ++ [98, 98] ++ [98] ∧
    ¬ ∃ pre, List.replicate 4998 98 ++ [98, 98] = pre ++ [10] := by
  have hrep : lastIndexByte (List.replicate 4998 98) 10 = none :=
    lastIndexByte_replicate_ne (by decide) 4998
  have h0 : lastIndexByte (10 :: List.replicate 4998 98) 10 = some 0 := by
    rw [lastIndexByte_cons, hrep]
    rfl
  have h1 : lastIndexByte (97 :: 10 :: List.replicate 4998 98) 10 = some 1 := by
    rw [lastIndexByte_cons, h0]
  have hnc1 : newlineCut (97 :: 10 :: List.replicate 4998 98) = 2 := by
    unfold newlineCut
    rw [h1]
  have hci1 : chunkIter [] (97 :: 10 :: List.replicate 4998 98) =
      ([97, 10], List.replicate 4998 98) := by
    unfold chunkIter
    rw [hnc1]
    rfl
  have hlen : (97 :: 10 :: List.replicate 4998 98).length = 5000 := by
    rw [List.length_cons, List.length_cons, List.length_replicate]
  refine ⟨?_, ?_, ?_, ?_, ?_⟩
  · show (chunkIter [] (97 :: 10 :: List.replicate 4998 98)).1 ::
        segsOf [⟨[98, 98], none⟩, ⟨[98], none⟩]
          (chunkIter [] (97 :: 10 :: List.replicate 4998 98)).2 =
        [[97, 10], List.replicate 4998 98 ++ [98, 98], [98]]
    rw [hci1]
    rfl
  · rw [validFrom_cons_none, hlen, hnc1]
    decide
  · have hl2 : ((97 :: 10 :: List.replicate 4998 98) ++ [98, 98] ++ [98]).length = 5003 := by
      rw [List.length_append, List.length_append, List.length_cons, List.length_cons,
        List.length_replicate]
      norm_num
    rw [hl2]
    decide
  · exact List.mem_append_left _ (List.mem_append_left _
      (List.mem_cons_of_mem 97 (List.mem_cons_self 10 _)))
  · rintro ⟨pre, hpre⟩
    have hlast : (List.replicate 4998 98 ++ [98, 98]).getLast? = some 98 := by
      rw [show (List.replicate 4998 98 ++ [98, 98] : List Nat) =
          (List.replicate 4998 98 ++ [98]) ++ [98] from
        (List.append_assoc (List.replicate 4998 98) [98] [98]).symm]
      exact List.getLast?_concat _
    have h2 : (pre ++ [10] : List Nat).getLast? = some 10 := List.getLast?_concat _
    rw [hpre, h2] at hlast
    exact absurd hlast (by decide)

/-- Claim C6 (counterexample): with buffered residue `"b"`, a read that
returns zero bytes with no error makes the loop pass the residue `"b"`
to the wire codec as a segment and clear the residue, instead of the
claimed no-segment, residue-untouched retry. -/
theorem zero_read_flushes_residue :
    chunkIter [98] [] = ([98], []) ∧
    (([98], []) : List Nat × List Nat) ≠ (([] : List Nat), [98]) :=
  ⟨rfl, by decide⟩

/-- Claim C6 (amended): a read that returns zero bytes with no error is
not retried: that iteration passes the entire buffered residue to the
wire codec as a segment (the empty-bypass when the residue is empty) and
clears the residue. -/
theorem zero_read_emits_residue_segment (evs : List Ev) (r : List Nat) :
    segsOf (⟨[], none⟩ :: evs) r = r :: segsOf evs [] := by
  show (chunkIter r []).1 :: segsOf evs (chunkIter r []).2 = r :: segsOf evs []
  have h : chunkIter r [] = (r, []) := by
    unfold chunkIter newlineCut
    simp [lastIndexByte]
  rw [h]

theorem segsOf_bounded (evs : List Ev) : ∀ r : List Nat, validFrom evs r.length = true →
    r.length ≤ 5000 → ∀ seg ∈ segsOf evs r, seg.length ≤ 5000 := by
  induction evs with
  | nil =>
    intro r _ hr seg hm
    have hseg : segsOf ([] : List Ev) r = if r = [] then [] else [r] := rfl
    rw [hseg] at hm
    by_cases h : r = []
    · simp [h] at hm
    · rw [if_neg h] at hm
      have hsr : seg = r := by simpa using hm
      subst hsr
      exact hr
  | cons ev rest ih =>
    intro r hv hr seg hm
    have hstep : ev.data.length + r.length ≤ 5000 →
        validFrom rest (ev.data.length - newlineCut ev.data) = true →
        seg ∈ (chunkIter r ev.data).1 :: segsOf rest (chunkIter r ev.data).2 →
        seg.length ≤ 5000 := by
      intro hd hb hm2
      have hr2 : ((chunkIter r ev.data).2).length = ev.data.length - newlineCut ev.data := by
        simp [chunkIter, List.length_drop]
      rcases List.mem_cons.mp hm2 with h1 | h2
      · subst h1
        have h3 : (ev.data.take (newlineCut ev.data)).length ≤ ev.data.length := by
          rw [List.length_take]
          exact min_le_right _ _
        simp only [chunkIter, List.length_append]
        omega
      · refine ih (chunkIter r ev.data).2 ?_ ?_ seg h2
        · rw [hr2]; exact hb
        · rw [hr2]; omega
    rcases he : ev.err with _ | e
    · simp only [validFrom, he] at hv
      rw [Bool.and_eq_true] at hv
      rcases hv with ⟨ha, hb⟩
      simp only [segsOf, he] at hm
      exact hstep (of_decide_eq_true ha) hb hm
    · cases e with
      | fail => simp [segsOf, he] at hm
      | eof =>
        simp only [validFrom, he] at hv
        rw [Bool.and_eq_true] at hv
        rcases hv with ⟨ha, hb⟩
        simp only [segsOf, he] at hm
        by_cases hc : ev.data = [] ∧ r = []
        · simp [hc] at hm
        · rw [if_neg hc] at hm
          have hc' : ¬(ev.data = [] ∧ r.length = 0) := by
            intro hx
            exact hc ⟨hx.1, List.length_eq_zero.mp hx.2⟩
          rw [if_neg hc'] at hb
          exact hstep (of_decide_eq_true ha) hb hm

/-- Claim C7: over any realizable read script, every segment the chunker
passes to the wire codec is at most 5000 bytes long — including the
final flush of the residue, which always fits the 5000-byte buffer, so
the claim's allowance for an unbounded final flush is never needed. -/
theorem segments_bounded_by_cap (evs : List Ev) (h : validFrom evs 0 = true) :
    ∀ seg ∈ segsOf evs [], seg.length ≤ 5000 :=
  segsOf_bounded evs [] h (by simp)

/-- Witness for C7 at the one-chunk script `"a\nb"`: the claim applies
and bounds the segment `"a\n"`. -/
theorem segments_bounded_witness :
    validFrom [⟨[97, 10, 98], none⟩] 0 = true ∧ ([97, 10] : List Nat).length ≤ 5000 :=
  ⟨by decide, segments_bounded_by_cap [⟨[97, 10, 98], none⟩] (by decide) [97, 10] (by decide)⟩

/-! ### Claims C1 and C8: the decode phase -/

theorem descend_eq : ∀ (path : List Nat) (ys : List JVal),
    descend path ys =
      (if pathMissing path ys then GoResult.panic
       else match pathTarget path ys with
        | some frs => GoResult.ok frs
        | none => GoResult.err "Could not decode response") := by
  intro path
  induction path with
  | nil => intro ys; rfl
  | cons n path ih =>
    intro ys
    rcases h : ys.drop n with _ | ⟨v, tail⟩
    · simp [descend, pathMissing, pathTarget, h]
    · cases v <;> simp [descend, pathMissing, pathTarget, h, ih]

theorem collectFrags_eq : ∀ frs : List JVal,
    collectFrags frs =
      (if fragsMissing frs then GoResult.panic
       else if fragsAllStrs frs then GoResult.ok (fragsText frs)
       else GoResult.err "Could not decode response") := by
  intro frs
  induction frs with
  | nil => rfl
  | cons v rest ih =>
    cases v with
    | jnull => rfl
    | jbool bb => rfl
    | jnum q => rfl
    | jstr s2 => rfl
    | jarr ws =>
      cases ws with
      | nil => rfl
      | cons w ws2 =>
        cases w with
        | jnull => rfl
        | jbool bb => rfl
        | jnum q => rfl
        | jarr zs => rfl
        | jstr s2 =>
          show (match collectFrags rest with
            | GoResult.ok t => GoResult.ok (s2 ++ t)
            | GoResult.err e => GoResult.err e
            | GoResult.panic => GoResult.panic) = _
          rw [ih]
          by_cases h1 : fragsMissing rest = true
          · simp [h1, fragsMissing, fragsAllStrs, fragsText]
          · by_cases h2 : fragsAllStrs rest = true <;>
              simp [h1, h2, fragsMissing, fragsAllStrs, fragsText]

theorem finishNewline_panic_iff (b : List Nat) :
    finishNewline b = GoResult.panic ↔ b = [] := by
  rcases h : b.getLast? with _ | c
  · simp only [finishNewline, h]
    rw [List.getLast?_eq_none_iff] at h
    simp [h]
  · simp only [finishNewline, h]
    have hb : b ≠ [] := by
      intro he
      subst he
      simp at h
    by_cases hc : c = 10 <;> simp [hc, hb]

theorem decodeFrags_eq (frs : List JVal) :
    decodeFrags frs =
      (if fragsMissing frs then GoResult.panic
       else if fragsAllStrs frs then finishNewline (fragsText frs)
       else GoResult.err "Could not decode response") := by
  unfold decodeFrags
  rw [collectFrags_eq]
  by_cases h1 : fragsMissing frs = true
  · simp [h1, GoResult.bind]
  · by_cases h2 : fragsAllStrs frs = true <;> simp [h1, h2, GoResult.bind]



/-- Claim C1 (amended): the decode phase panics exactly when a required
element is missing — outer array empty, first row shorter than 3, a
fixed-path index out of range (including an inner JSON `null`, which
unmarshals to a nil slice on which `y[1]` is already out of range), an
empty fragment array, or an empty fragment concatenation at the
trailing-newline check; in every other case it returns a decoded
translation or a decode error. -/
theorem decode_panic_iff_missing_element (x : List (List JVal)) (y : JVal) :
    decodeShape x y = GoResult.panic ↔ respMissing x y = true := by
  rcases x with _ | ⟨x0, xt⟩
  · simp [decodeShape, extractOuterString, GoResult.bind, respMissing]
  · rcases x0 with _ | ⟨a, _ | ⟨b2, _ | ⟨v, rest⟩⟩⟩
    · simp [decodeShape, extractOuterString, GoResult.bind, respMissing]
    · simp [decodeShape, extractOuterString, GoResult.bind, respMissing]
    · simp [decodeShape, extractOuterString, GoResult.bind, respMissing]
    · cases v with
      | jnull => simp [decodeShape, extractOuterString, GoResult.bind, respMissing]
      | jbool bb => simp [decodeShape, extractOuterString, GoResult.bind, respMissing]
      | jnum q => simp [decodeShape, extractOuterString, GoResult.bind, respMissing]
      | jarr zs => simp [decodeShape, extractOuterString, GoResult.bind, respMissing]
      | jstr s2 =>
        rcases y with _ | bb | q | sy | ys
        · exact ⟨fun _ => rfl, fun _ => rfl⟩
        · simp [decodeShape, extractOuterString, asArray, GoResult.bind, respMissing]
        · simp [decodeShape, extractOuterString, asArray, GoResult.bind, respMissing]
        · simp [decodeShape, extractOuterString, asArray, GoResult.bind, respMissing]
        · show GoResult.bind (descend [1, 0, 0, 5] ys) decodeFrags = GoResult.panic ↔ _
          rw [descend_eq]
          by_cases h1 : pathMissing [1, 0, 0, 5] ys = true
          · simp [h1, GoResult.bind, respMissing]
          · rcases ht : pathTarget [1, 0, 0, 5] ys with _ | frs
            · simp [h1, ht, GoResult.bind, respMissing]
            · simp only [h1, ht, if_neg, Bool.not_eq_true]
              show decodeFrags frs = GoResult.panic ↔ _
              rw [decodeFrags_eq]
              by_cases h2 : fragsMissing frs = true
              · simp [h2, respMissing, ht, h1]
              · by_cases h3 : fragsAllStrs frs = true
                · rw [if_neg h2, if_pos h3, finishNewline_panic_iff]
                  simp [respMissing, ht, h1, h2, h3, List.isEmpty_iff]
                · simp [h2, h3, respMissing, ht, h1]



theorem fragsAllStrs_missing_false : ∀ frs : List JVal,
    fragsAllStrs frs = true → fragsMissing frs = false := by
  intro frs
  induction frs with
  | nil => intro _; rfl
  | cons v rest ih =>
    cases v with
    | jnull => intro h; exact absurd h (by simp [fragsAllStrs])
    | jbool bb => intro h; exact absurd h (by simp [fragsAllStrs])
    | jnum q => intro h; exact absurd h (by simp [fragsAllStrs])
    | jstr s2 => intro h; exact absurd h (by simp [fragsAllStrs])
    | jarr ws =>
      cases ws with
      | nil => intro h; exact absurd h (by simp [fragsAllStrs])
      | cons w ws2 =>
        cases w with
        | jnull => intro h; exact absurd h (by simp [fragsAllStrs])
        | jbool bb => intro h; exact absurd h (by simp [fragsAllStrs])
        | jnum q => intro h; exact absurd h (by simp [fragsAllStrs])
        | jarr zs => intro h; exact absurd h (by simp [fragsAllStrs])
        | jstr s2 =>
          intro h
          have hr : fragsAllStrs rest = true := by simpa [fragsAllStrs] using h
          simpa [fragsMissing] using ih hr

/-- Claim C1 (counterexample): the response body `"[[]]"` decodes into
the outer array `x = [[]]` whose first row is empty, and the step
`x[0][2]` then panics with an index-out-of-range runtime error instead
of returning a decode error, refuting "it never crashes". -/
theorem decode_crash_on_short_outer :
    decodeShape [[]] JVal.jnull = GoResult.panic := rfl

/-- Witness for C1's amended claim at a concrete decoded response: with
an inner value that is an empty array, the first fixed-path index is out
of range and the decoder indeed panics. -/
theorem decode_panic_iff_witness :
    decodeShape [[JVal.jnull, JVal.jnull, JVal.jstr []]] (JVal.jarr []) = GoResult.panic :=
  (decode_panic_iff_missing_element [[JVal.jnull, JVal.jnull, JVal.jstr []]]
    (JVal.jarr [])).mpr (by decide)

/-- Claim C8 (counterexample): the well-formed non-empty fragment list
`[[""]]` has the empty concatenation, and the trailing-newline check
`b[len(b)-1]` panics on it instead of producing the claimed output
`"\n"`. -/
theorem decode_fragments_empty_concat_panics :
    decodeFrags [JVal.jarr [JVal.jstr []]] = GoResult.panic ∧
    GoResult.panic ≠ GoResult.ok [10] :=
  ⟨rfl, by decide⟩

/-- Claim C8 (amended): for every well-formed non-empty fragment list
whose fragments' first strings have a non-empty concatenation, the
decoded output is the in-order concatenation of those strings, with a
newline appended exactly when the concatenation does not already end
with one. -/
theorem decode_fragments_concat_newline (frs : List JVal)
    (_h0 : frs ≠ []) (h1 : fragsAllStrs frs = true) (h2 : fragsText frs ≠ []) :
    decodeFrags frs = GoResult.ok
      (fragsText frs ++ if (fragsText frs).getLast? = some 10 then [] else [10]) := by
  have hmiss : fragsMissing frs = false := fragsAllStrs_missing_false frs h1
  rw [decodeFrags_eq, if_neg (by simp [hmiss]), if_pos h1]
  rcases hl : (fragsText frs).getLast? with _ | c
  · rw [List.getLast?_eq_none_iff] at hl
    exact absurd hl h2
  · simp only [finishNewline, hl]
    by_cases hc : c = 10 <;> simp [hc]

/-- Witness for C8's amended claim: fragments `["He", "llo"]` decode to
`"Hello\n"`. -/
theorem decode_fragments_witness :
    decodeFrags [JVal.jarr [JVal.jstr [72, 101]], JVal.jarr [JVal.jstr [108, 108, 111]]] =
      GoResult.ok [72, 101, 108, 108, 111, 10] :=
  (decode_fragments_concat_newline
      [JVal.jarr [JVal.jstr [72, 101]], JVal.jarr [JVal.jstr [108, 108, 111]]]
      (List.cons_ne_nil _ _) rfl (by decide)).trans (by decide)

/-! ### Claims C5, C9 and C10 -/

theorem jsonEscape_rpcid :
    jsonEscape [77, 107, 69, 87, 66, 99] = [77, 107, 69, 87, 66, 99] := by decide

theorem jsonEscape_generic :
    jsonEscape [103, 101, 110, 101, 114, 105, 99] = [103, 101, 110, 101, 114, 105, 99] := by decide

theorem queryEscape_fReq :
    queryEscape [102, 46, 114, 101, 113] = [102, 46, 114, 101, 113] := by decide

theorem innerPayload_eq (data src tgt : List Nat) :
    innerPayload data src tgt = specInnerJSON data src tgt := by
  simp [innerPayload, specInnerJSON, marshal, marshalList]

/-- Claim C5: for every non-empty segment text and language pair, the
POST body built by `translate` is exactly
`f.req=<url-encoded>` of `[[["MkEWBc","<escaped-inner-JSON>",null,"generic"]]]`
where the escaped inner JSON is the JSON encoding of
`[[text, sourceLang, targetLang, true],[null]]`. -/
theorem request_body_matches_spec_shape (data src tgt : List Nat) (_h : data ≠ []) :
    postBody data src tgt = specBody data src tgt := by
  simp [postBody, specBody, wrapPayload, specOuterJSON, marshal, marshalList,
    innerPayload_eq, jsonEscape_rpcid, jsonEscape_generic, queryEscape_fReq,
    rpcidBytes, genericBytes, fReqBytes]

/-- Witness for C5 at text `"hi"`, source `"auto"`, target `"en"`. -/
theorem request_body_witness :
    postBody [104, 105] [97, 117, 116, 111] [101, 110] =
      specBody [104, 105] [97, 117, 116, 111] [101, 110] :=
  request_body_matches_spec_shape _ _ _ (by decide)



theorem segsOf_all_empty : ∀ evs : List Ev,
    (∀ ev ∈ evs, ev.data = [] ∧ ev.err ≠ some RErr.fail) →
    ∀ s ∈ segsOf evs [], s = [] := by
  intro evs
  induction evs with
  | nil =>
    intro _ s hs
    simp [segsOf] at hs
  | cons ev rest ih =>
    intro h s hs
    have hev := h ev (List.mem_cons_self _ _)
    have htail : ∀ ev2 ∈ rest, ev2.data = [] ∧ ev2.err ≠ some RErr.fail :=
      fun e2 he2 => h e2 (List.mem_cons_of_mem _ he2)
    rcases he : ev.err with _ | e
    · simp only [segsOf, he] at hs
      rw [hev.1] at hs
      rcases List.mem_cons.mp hs with h1 | h2
      · simpa using h1
      · exact ih htail s h2
    · cases e with
      | fail => exact absurd he hev.2
      | eof =>
        simp only [segsOf, he] at hs
        rw [if_pos ⟨hev.1, trivial⟩] at hs
        simp at hs

theorem runsClean_all_empty : ∀ evs : List Ev,
    (∀ ev ∈ evs, ev.data = [] ∧ ev.err ≠ some RErr.fail) → runsClean evs [] = true := by
  intro evs
  induction evs with
  | nil => intro _; rfl
  | cons ev rest ih =>
    intro h
    have hev := h ev (List.mem_cons_self _ _)
    have htail : ∀ ev2 ∈ rest, ev2.data = [] ∧ ev2.err ≠ some RErr.fail :=
      fun e2 he2 => h e2 (List.mem_cons_of_mem _ he2)
    rcases he : ev.err with _ | e
    · simp only [runsClean, he]
      rw [hev.1]
      exact ih htail
    · cases e with
      | fail => exact absurd he hev.2
      | eof =>
        simp only [runsClean, he]
        rw [if_pos ⟨hev.1, trivial⟩]

/-- Claim C9: reading an empty input stream (every read delivers zero
bytes and no failure) issues zero network calls, writes nothing to the
sink, and returns no error; and `translate` on an empty segment bypasses
the network entirely (the outcome is `ok []` whatever the transport
does). -/
theorem empty_input_no_network_no_output :
    (∀ evs : List Ev, (∀ ev ∈ evs, ev.data = [] ∧ ev.err ≠ some RErr.fail) →
      networkCalls evs = 0 ∧ (∀ net, outputBytes net evs = []) ∧ runsClean evs [] = true) ∧
    (∀ (net : List Nat → NetResp) (src tgt : List Nat),
      translateOutcome net [] src tgt = GoResult.ok []) := by
  constructor
  · intro evs h
    have hall := segsOf_all_empty evs h
    refine ⟨?_, ?_, runsClean_all_empty evs h⟩
    · unfold networkCalls
      rw [List.length_eq_zero, List.filter_eq_nil_iff]
      intro a ha
      simp [hall a ha]
    · intro net
      unfold outputBytes
      rw [List.flatten_eq_nil_iff]
      intro x hx
      rcases List.mem_map.mp hx with ⟨s, hs, hxs⟩
      rw [hall s hs] at hxs
      simpa using hxs.symm
  · intro net src tgt
    rfl

/-- Witness for C9 at the two-read empty stream `(0, nil)` then
`(0, io.EOF)`, and a transport stub for the empty-segment bypass. -/
theorem empty_input_witness :
    networkCalls [⟨[], none⟩, ⟨[], some RErr.eof⟩] = 0 ∧
    outputBytes (fun _ => [99]) [⟨[], none⟩, ⟨[], some RErr.eof⟩] = [] ∧
    runsClean [⟨[], none⟩, ⟨[], some RErr.eof⟩] [] = true ∧
    translateOutcome (fun _ => NetResp.noMarker) [] [] [] = GoResult.ok [] := by
  have h := empty_input_no_network_no_output
  have h1 := h.1 [⟨[], none⟩, ⟨[], some RErr.eof⟩] (by decide)
  exact ⟨h1.1, h1.2.1 _, h1.2.2, h.2 _ _ _⟩


/-- Claim C10: when the first `Languages()` call returns an error at any
point after its initial HTTP fetch succeeded, the process-wide cache has
already been assigned the non-nil empty list, so every subsequent call
returns an empty language list and a nil error with no further network
activity. -/
theorem languages_cache_after_error (eff : LangEff)
    (h1 : eff.get1 = none)
    (h2 : exceptIsError (languagesCall eff none).2.1 = true) :
    (languagesCall eff none).1 = some [] ∧
    ∀ eff2 : LangEff, languagesCall eff2 (some []) = (some [], Except.ok [], false) := by
  refine ⟨?_, fun eff2 => rfl⟩
  rcases eff with ⟨g1, f1, d1, g2, f2, d2⟩
  cases h1
  cases f1 with
  | some e => rfl
  | none =>
    cases d1 with
    | error e => rfl
    | ok pairs =>
      cases g2 with
      | some e => rfl
      | none =>
        cases f2 with
        | some e => rfl
        | none =>
          cases d2 with
          | error e => rfl
          | ok endos => simp [languagesCall, exceptIsError] at h2

/-- Witness for C10: a first call whose sentinel scan fails leaves the
cache at the empty list; a second call with fresh effects returns the
empty list, no error, and no network fetch. -/
theorem languages_cache_witness :
    (languagesCall ⟨none, some "x", Except.ok [], none, none, Except.ok []⟩ none).1 = some [] ∧
    languagesCall ⟨none, none, Except.ok [], none, none, Except.ok []⟩ (some []) =
      (some [], Except.ok [], false) := by
  have h := languages_cache_after_error
    ⟨none, some "x", Except.ok [], none, none, Except.ok []⟩ rfl rfl
  exact ⟨h.1, h.2 _⟩

end GoTranslate
